import Mathlib

set_option linter.unusedVariables false

/-!
Verification of the antibeaver governance engine against its specification.

The definitions below are a shallow embedding of the repository's core module
(the pure functions `shouldBuffer`, `generateSynthesisPrompt`, `escapeContent`,
`validatePriority`, `validateThought`, `validateLatency`, and the
`LatencyTracker` class) together with the SQLite-backed thought store helpers
of the plugin file (`insertThought`, `getPendingThoughts`, `markSynthesized`).

Modelling conventions:
- JavaScript numbers are modelled as exact rationals (`ℚ`); timestamps as `ℤ`.
  No claim below depends on floating-point rounding of sums or quotients.
- `Date.now()` is passed in explicitly as a `now : ℤ` parameter, and
  `new Date(string).getTime()` as an explicit `parseTime : String → ℤ`
  parameter, since both are environment primitives.
- SQL `ORDER BY` on this query plan and ECMAScript `Array.prototype.sort`
  (stable since ES2019) are both modelled by the stable sort
  `List.insertionSort`; ties of the sort key keep table / array order.
- SQLite TEXT comparison (BINARY collation) is modelled by the lexicographic
  order on `String`, which agrees with byte order on the ASCII data involved
  (`P0`/`P1`/`P2` priorities and `datetime('now')` timestamps).
-/

/-- The core type `interface LatencySample \x7b ts; latencyMs \x7d`. -/
structure LatencySample where
  ts : Int
  latencyMs : ℚ
deriving DecidableEq, Repr

/-- The `LatencyTracker` class state: `samples` array and `maxSamples` capacity
(constructor default 100). -/
structure LatencyTracker where
  samples : List LatencySample
  maxSamples : Nat
deriving DecidableEq, Repr

/-- The `maxSamples = 100` constructor default of `LatencyTracker`. -/
def defaultMaxSamples : Nat := 100

/-- A tracker holding no samples, with the given capacity. -/
def LatencyTracker.empty (maxSamples : Nat) : LatencyTracker :=
  ⟨[], maxSamples⟩

/-- The method `record(latencyMs)`: clamp negative input to 0, push the sample,
and if the array now exceeds `maxSamples`, `shift()` the oldest entry. -/
def LatencyTracker.record (tr : LatencyTracker) (now : Int) (latencyMs : ℚ) :
    LatencyTracker :=
  let clamped := max 0 latencyMs
  let samples := tr.samples ++ [⟨now, clamped⟩]
  if samples.length > tr.maxSamples then ⟨samples.tail, tr.maxSamples⟩
  else ⟨samples, tr.maxSamples⟩

/-- The window filter `samples.filter(s => now - s.ts < windowMs)` shared by
`getAverage` and `getMax`. -/
def LatencyTracker.recentSamples (tr : LatencyTracker) (now windowMs : Int) :
    List LatencySample :=
  tr.samples.filter (fun s => now - s.ts < windowMs)

/-- The method `getAverage(windowMs, fallback)`: mean of the in-window samples,
or `fallback` when the filtered set is empty. -/
def LatencyTracker.getAverage (tr : LatencyTracker) (now windowMs : Int)
    (fallback : ℚ) : ℚ :=
  let recent := tr.recentSamples now windowMs
  if recent.length = 0 then fallback
  else ((recent.map (·.latencyMs)).sum) / recent.length

/-- The method `getMax(windowMs, fallback)`: the spread maximum of latencies
over the in-window samples, or `fallback` when the filtered set is empty. -/
def LatencyTracker.getMax (tr : LatencyTracker) (now windowMs : Int)
    (fallback : ℚ) : ℚ :=
  match (tr.recentSamples now windowMs).map (·.latencyMs) with
  | [] => fallback
  | x :: xs => xs.foldl max x

/-- The method `getSampleCount()`. -/
def LatencyTracker.getSampleCount (tr : LatencyTracker) : Nat :=
  tr.samples.length

/-- JavaScript `Math.round` on an exact rational: round half toward positive infinity. -/
def jsRound (q : ℚ) : Int := ⌊q + 1 / 2⌋

/-- The core type `interface SystemState`. -/
structure SystemState where
  globalForcedBuffering : Bool
  simulatedLatencyMs : ℚ
  systemHalted : Bool
deriving DecidableEq, Repr

/-- The core type `interface BufferStatus`. -/
structure BufferStatus where
  buffering : Bool
  reason : String
  latencyMs : ℚ
deriving DecidableEq, Repr

/-- The core decision function `shouldBuffer(tracker, threshold, state)`,
with `Date.now()` passed explicitly as `now`. -/
def shouldBuffer (tr : LatencyTracker) (now : Int) (threshold : ℚ)
    (state : SystemState) : BufferStatus :=
  if state.systemHalted then
    ⟨true, "SYSTEM HALTED", 0⟩
  else if state.globalForcedBuffering then
    ⟨true, "manual override", tr.getAverage now 60000 state.simulatedLatencyMs⟩
  else if state.simulatedLatencyMs > threshold then
    ⟨true, "simulated " ++ toString state.simulatedLatencyMs ++ "ms",
      state.simulatedLatencyMs⟩
  else
    let maxLatency := tr.getMax now 60000 state.simulatedLatencyMs
    if maxLatency > threshold then
      ⟨true, "latency " ++ toString (jsRound maxLatency) ++ "ms > " ++
        toString (jsRound threshold) ++ "ms", maxLatency⟩
    else
      ⟨false, "healthy", tr.getAverage now 60000 state.simulatedLatencyMs⟩

/-- C1 counterexample input: a halted state that also has every other
buffering trigger active, over a tracker with very high recorded latency. -/
def c1Tracker : LatencyTracker := ⟨[⟨0, 99999⟩], 100⟩

/-- C1 counterexample: with `halted=true` the decision's reason is the string
`SYSTEM HALTED`, not `halted` as the claim states. -/
theorem shouldBuffer_halted_reason_not_halted :
    (shouldBuffer c1Tracker 0 5000 ⟨true, 99999, true⟩).reason =
      "SYSTEM HALTED" ∧
    (shouldBuffer c1Tracker 0 5000 ⟨true, 99999, true⟩).reason ≠ "halted" := by
  constructor
  · rfl
  · decide

/-- C1 (amended): for every tracker, clock, threshold and system state with
`halted=true` — whatever the other flags and the recorded latency — the
decision is `buffering=true`, reason `SYSTEM HALTED`, `latencyMs=0`; no later
rule is consulted. -/
theorem shouldBuffer_halted (tr : LatencyTracker) (now : Int) (threshold : ℚ)
    (state : SystemState) (h : state.systemHalted = true) :
    shouldBuffer tr now threshold state = ⟨true, "SYSTEM HALTED", 0⟩ := by
  simp [shouldBuffer, h]

/-- C1 witness: the amended theorem at the counterexample input. -/
theorem shouldBuffer_halted_witness :
    shouldBuffer c1Tracker 0 5000 ⟨true, 99999, true⟩ =
      ⟨true, "SYSTEM HALTED", 0⟩ :=
  shouldBuffer_halted c1Tracker 0 5000 ⟨true, 99999, true⟩ rfl

/-- C2: with `halted=false`, `forcedBuffering=false` and a simulated latency
not above the threshold, the threshold comparison on the measured window max
is strict: a window max equal to the threshold is healthy, while
`threshold + 1` buffers. -/
theorem shouldBuffer_threshold_strict (tr : LatencyTracker) (now : Int)
    (threshold : ℚ) (state : SystemState)
    (hh : state.systemHalted = false)
    (hf : state.globalForcedBuffering = false)
    (hs : state.simulatedLatencyMs ≤ threshold)
    (hne : tr.recentSamples now 60000 ≠ []) :
    (tr.getMax now 60000 state.simulatedLatencyMs = threshold →
      (shouldBuffer tr now threshold state).buffering = false) ∧
    (tr.getMax now 60000 state.simulatedLatencyMs = threshold + 1 →
      (shouldBuffer tr now threshold state).buffering = true) := by
  have hsim : ¬ state.simulatedLatencyMs > threshold := not_lt.mpr hs
  constructor
  · intro hmax
    simp [shouldBuffer, hh, hf, hsim, hmax]
  · intro hmax
    have : tr.getMax now 60000 state.simulatedLatencyMs > threshold := by
      rw [hmax]; linarith
    simp [shouldBuffer, hh, hf, hsim, this]

/-- C2 witness: one in-window sample exactly at the 5000ms threshold is
healthy; one at 5001ms buffers. -/
theorem shouldBuffer_threshold_strict_witness :
    (shouldBuffer ⟨[⟨0, 5000⟩], 100⟩ 0 5000 ⟨false, 0, false⟩).buffering =
      false ∧
    (shouldBuffer ⟨[⟨0, 5001⟩], 100⟩ 0 5000 ⟨false, 0, false⟩).buffering =
      true := by
  constructor
  · exact (shouldBuffer_threshold_strict ⟨[⟨0, 5000⟩], 100⟩ 0 5000
      ⟨false, 0, false⟩ rfl rfl (by norm_num) (by decide)).1 (by decide)
  · exact (shouldBuffer_threshold_strict ⟨[⟨0, 5001⟩], 100⟩ 0 5000
      ⟨false, 0, false⟩ rfl rfl (by norm_num) (by decide)).2
      (by norm_num [LatencyTracker.getMax, LatencyTracker.recentSamples])

/-- Folding a sequence of `record(latencyMs)` calls (each with its call-time
clock value) over a tracker. -/
def recordAll (tr : LatencyTracker) (entries : List (Int × ℚ)) :
    LatencyTracker :=
  entries.foldl (fun t e => t.record e.1 e.2) tr

/-- The sample that a `record` call stores: the clamped value with the
call-time timestamp. -/
def clampSample (e : Int × ℚ) : LatencySample := ⟨e.1, max 0 e.2⟩

/-- The suffix of length at most `n` of a list: what a FIFO window of
capacity `n` retains. -/
def tailWindow (n : Nat) (l : List LatencySample) : List LatencySample :=
  l.drop (l.length - n)

theorem tailWindow_length_le (n : Nat) (l : List LatencySample) :
    (tailWindow n l).length ≤ n := by
  simp only [tailWindow, List.length_drop]
  omega

theorem tailWindow_of_length_le {n : Nat} {l : List LatencySample}
    (h : l.length ≤ n) : tailWindow n l = l := by
  simp only [tailWindow]
  have : l.length - n = 0 := by omega
  simp [this]

theorem tailWindow_append_tailWindow (n : Nat) (l m : List LatencySample) :
    tailWindow n (tailWindow n l ++ m) = tailWindow n (l ++ m) := by
  simp only [tailWindow, List.length_append, List.length_drop]
  rw [← List.drop_append_of_le_length (by omega : l.length - n ≤ l.length)]
  rw [List.drop_drop]
  congr 1
  omega

theorem record_eq_tailWindow (s : List LatencySample) (N : Nat)
    (h : s.length ≤ N) (t : Int) (v : ℚ) :
    LatencyTracker.record ⟨s, N⟩ t v =
      ⟨tailWindow N (s ++ [clampSample (t, v)]), N⟩ := by
  simp only [LatencyTracker.record, clampSample, tailWindow, List.length_append,
    List.length_cons, List.length_nil]
  by_cases hlen : s.length + 1 > N
  · have h1 : s.length = N := by omega
    have h2 : s.length + 0 + 1 - N = 1 := by omega
    simp [hlen, h2, List.drop_one]
  · have h2 : s.length + 0 + 1 - N = 0 := by omega
    simp [hlen, h2]

theorem recordAll_samples (entries : List (Int × ℚ)) :
    ∀ (s : List LatencySample) (N : Nat), s.length ≤ N →
      recordAll ⟨s, N⟩ entries =
        ⟨tailWindow N (s ++ entries.map clampSample), N⟩ := by
  induction entries with
  | nil =>
    intro s N h
    simp [recordAll, tailWindow_of_length_le h]
  | cons e rest ih =>
    intro s N h
    have step : recordAll ⟨s, N⟩ (e :: rest) =
        recordAll ⟨tailWindow N (s ++ [clampSample e]), N⟩ rest := by
      simp only [recordAll, List.foldl_cons]
      rw [record_eq_tailWindow s N h]
    rw [step, ih _ N (tailWindow_length_le _ _), tailWindow_append_tailWindow]
    simp

theorem recordAll_empty (maxSamples : Nat) (entries : List (Int × ℚ)) :
    recordAll (LatencyTracker.empty maxSamples) entries =
      ⟨tailWindow maxSamples (entries.map clampSample), maxSamples⟩ := by
  have h := recordAll_samples entries [] maxSamples (by simp)
  simpa [LatencyTracker.empty] using h

/-- C7: any sequence of `record` calls starting from an empty tracker leaves
exactly the suffix of length at most `maxSamples` of the clamped input
sequence, in insertion order: each call clamps a negative value to 0, appends
the sample with its call-time timestamp, and eviction removes exactly the
oldest sample (FIFO), so the window never holds more than `maxSamples`
samples. -/
theorem record_capacity_fifo (maxSamples : Nat) (entries : List (Int × ℚ)) :
    (recordAll (LatencyTracker.empty maxSamples) entries).samples =
      tailWindow maxSamples (entries.map clampSample) ∧
    (recordAll (LatencyTracker.empty maxSamples) entries).samples.length ≤
      maxSamples ∧
    (recordAll (LatencyTracker.empty maxSamples) entries).maxSamples =
      maxSamples ∧
    defaultMaxSamples = 100 := by
  rw [recordAll_empty]
  exact ⟨rfl, tailWindow_length_le _ _, rfl, rfl⟩

theorem le_foldl_max : ∀ (xs : List ℚ) (x a : ℚ), a ∈ x :: xs →
    a ≤ xs.foldl max x := by
  intro xs
  induction xs with
  | nil =>
    intro x a ha
    simp only [List.mem_singleton] at ha
    simp [ha]
  | cons y ys ih =>
    intro x a ha
    rcases List.mem_cons.mp ha with h | h
    · subst h
      calc a ≤ max a y := le_max_left a y
        _ ≤ ys.foldl max (max a y) := ih (max a y) _ (List.mem_cons_self _ _)
        _ = (y :: ys).foldl max a := by simp
    · rcases List.mem_cons.mp h with h' | h'
      · subst h'
        calc a ≤ max x a := le_max_right x a
          _ ≤ ys.foldl max (max x a) := ih (max x a) _ (List.mem_cons_self _ _)
          _ = (a :: ys).foldl max x := by simp
      · exact ih (max x y) a (List.mem_cons_of_mem _ h')

theorem latency_le_getMax (tr : LatencyTracker) (now windowMs : Int)
    (fallback : ℚ) {s : LatencySample}
    (hs : s ∈ tr.recentSamples now windowMs) :
    s.latencyMs ≤ tr.getMax now windowMs fallback := by
  unfold LatencyTracker.getMax
  have hmem : s.latencyMs ∈ (tr.recentSamples now windowMs).map (·.latencyMs) :=
    List.mem_map_of_mem _ hs
  cases h : (tr.recentSamples now windowMs).map (·.latencyMs) with
  | nil => rw [h] at hmem; cases hmem
  | cons x xs =>
    rw [h] at hmem
    exact le_foldl_max xs x _ hmem

theorem recordAll_samples_nonneg (maxSamples : Nat)
    (entries : List (Int × ℚ)) {s : LatencySample}
    (hs : s ∈ (recordAll (LatencyTracker.empty maxSamples) entries).samples) :
    0 ≤ s.latencyMs := by
  rw [recordAll_empty] at hs
  have : s ∈ entries.map clampSample := List.mem_of_mem_drop hs
  rcases List.mem_map.mp this with ⟨e, _, he⟩
  rw [← he]
  exact le_max_left 0 e.2

/-- C6: after any sequence of `record(latencyMs)` calls,
`getMax(windowMs, fallback)` is at least every retained in-window sample and,
for a non-negative fallback (the only kind the program passes: the default 0
or a clamped simulated latency), never negative. -/
theorem getMax_bounds (maxSamples : Nat) (entries : List (Int × ℚ))
    (now windowMs : Int) (fallback : ℚ) (hfb : 0 ≤ fallback) :
    (∀ s ∈ (recordAll (LatencyTracker.empty maxSamples) entries).recentSamples
        now windowMs,
      s.latencyMs ≤ (recordAll (LatencyTracker.empty maxSamples)
        entries).getMax now windowMs fallback) ∧
    0 ≤ (recordAll (LatencyTracker.empty maxSamples) entries).getMax
        now windowMs fallback := by
  set tr := recordAll (LatencyTracker.empty maxSamples) entries with htr
  refine ⟨fun s hs => latency_le_getMax tr now windowMs fallback hs, ?_⟩
  unfold LatencyTracker.getMax
  cases h : (tr.recentSamples now windowMs).map (·.latencyMs) with
  | nil => exact hfb
  | cons x xs =>
    have hx : x ∈ (tr.recentSamples now windowMs).map (·.latencyMs) := by
      rw [h]; exact List.mem_cons_self _ _
    rcases List.mem_map.mp hx with ⟨smp, hmem, hval⟩
    have h0 : 0 ≤ x := by
      rw [← hval]
      exact recordAll_samples_nonneg maxSamples entries
        (List.mem_filter.mp hmem).1
    exact le_trans h0 (le_foldl_max xs x x (List.mem_cons_self _ _))

/-- C6 witness: three recorded samples (one negative, later clamped) with
capacity 2 and fallback 0. -/
theorem getMax_bounds_witness :
    (∀ s ∈ (recordAll (LatencyTracker.empty 2)
        [(0, -7), (1, 10), (2, 3)]).recentSamples 2 60000,
      s.latencyMs ≤ (recordAll (LatencyTracker.empty 2)
        [(0, -7), (1, 10), (2, 3)]).getMax 2 60000 0) ∧
    0 ≤ (recordAll (LatencyTracker.empty 2)
        [(0, -7), (1, 10), (2, 3)]).getMax 2 60000 0 :=
  getMax_bounds 2 [(0, -7), (1, 10), (2, 3)] 2 60000 0 le_rfl

/-- The core type `interface BufferedThought` (the SQLite row shape); `priority`
is kept as a string since the comparator and validators treat it
dynamically. -/
structure BufferedThought where
  id : Int
  agent_id : String
  channel : String
  target : String
  content : String
  priority : String
  created_at : String
  status : String
deriving DecidableEq, Repr

/-- One global `String.prototype.replace(/x/g, repl)` step for a single-char
pattern: every occurrence of `target` is replaced by `repl`. -/
def replaceChar (target : Char) (repl : List Char) (s : List Char) :
    List Char :=
  s.flatMap (fun c => if c = target then repl else [c])

/-- The core `escapeContent(content)`: escape backslashes, then double quotes, then
newlines, in that order (the core's three chained `.replace` calls). -/
def escapeContent (s : List Char) : List Char :=
  replaceChar '\n' ['\\', 'n']
    (replaceChar '"' ['\\', '"']
      (replaceChar '\\' ['\\', '\\'] s))

/-- The function `escapeContent` on `String`. -/
def escapeContentStr (s : String) : String := String.mk (escapeContent s.data)

/-- The per-character action of the composite escape: each of `\`, `"`, and
newline becomes a two-character escape, everything else passes through. -/
def escapeChar (c : Char) : List Char :=
  if c = '\\' then ['\\', '\\']
  else if c = '"' then ['\\', '"']
  else if c = '\n' then ['\\', 'n']
  else [c]

/-- The standard inverse of the escape: a backslash consumes the next
character, with `\n` mapping back to a newline. -/
def unescapeContent : List Char → List Char
  | [] => []
  | [c] => [c]
  | c :: d :: rest =>
    if c = '\\' then (if d = 'n' then '\n' else d) :: unescapeContent rest
    else c :: unescapeContent (d :: rest)

theorem unescapeContent_cons_of_ne {c : Char} (h : ¬c = '\\')
    (s : List Char) : unescapeContent (c :: s) = c :: unescapeContent s := by
  cases s with
  | nil => rfl
  | cons d rest => simp [unescapeContent, h]

theorem replaceChar_cons (target : Char) (repl : List Char) (c : Char)
    (s : List Char) :
    replaceChar target repl (c :: s) =
      (if c = target then repl else [c]) ++ replaceChar target repl s := by
  simp [replaceChar]

theorem escapeContent_cons (c : Char) (s : List Char) :
    escapeContent (c :: s) = escapeChar c ++ escapeContent s := by
  by_cases h1 : c = '\\'
  · subst h1
    simp [escapeContent, replaceChar_cons, escapeChar]
  · by_cases h2 : c = '"'
    · subst h2
      simp [escapeContent, replaceChar_cons, escapeChar]
    · by_cases h3 : c = '\n'
      · subst h3
        simp [escapeContent, replaceChar_cons, escapeChar]
      · simp [escapeContent, replaceChar_cons, escapeChar, h1, h2, h3]

theorem unescape_escape (s : List Char) :
    unescapeContent (escapeContent s) = s := by
  induction s with
  | nil => rfl
  | cons c rest ih =>
    rw [escapeContent_cons]
    by_cases h1 : c = '\\'
    · subst h1
      simp [escapeChar, unescapeContent, ih]
    · by_cases h2 : c = '"'
      · subst h2
        simp [escapeChar, unescapeContent, ih]
      · by_cases h3 : c = '\n'
        · subst h3
          simp [escapeChar, unescapeContent, ih]
        · simp [escapeChar, h1, h2, h3, unescapeContent_cons_of_ne h1, ih]

theorem escapeContent_eq_flatMap (s : List Char) :
    escapeContent s = s.flatMap escapeChar := by
  induction s with
  | nil => rfl
  | cons c rest ih => rw [escapeContent_cons, List.flatMap_cons, ih]

/-- The lookup `priorityOrder[a.priority] ?? 1` of the synthesis comparator. -/
def priorityOrder (p : String) : Nat :=
  if p = "P0" then 0 else if p = "P1" then 1 else if p = "P2" then 2 else 1

/-- The synthesis comparator `(a, b) => pDiff || timeDiff` as the
"comparator result is non-positive" relation that the sort orders by;
`pt` models `new Date(created_at).getTime()`. -/
def promptLE (pt : String → Int) (a b : BufferedThought) : Prop :=
  priorityOrder a.priority < priorityOrder b.priority ∨
    (priorityOrder a.priority = priorityOrder b.priority ∧
      pt a.created_at ≤ pt b.created_at)

instance promptLE.decidableRel (pt : String → Int) :
    DecidableRel (promptLE pt) := fun a b => by
  unfold promptLE; infer_instance

/-- The `[CRITICAL]` / `[low]` tag of a formatted thought line. -/
def priorityTag (p : String) : String :=
  if p = "P0" then " [CRITICAL]" else if p = "P2" then " [low]" else ""

/-- One formatted line of the core synthesis prompt, with escaped content. -/
def formatThought (i : Nat) (t : BufferedThought) : String :=
  toString (i + 1) ++ ". [" ++ t.created_at ++ "]" ++ priorityTag t.priority ++
    " \"" ++ escapeContentStr t.content ++ "\""

/-- The non-empty branch of the core `generateSynthesisPrompt`, applied to the
already-sorted list and the original count. -/
def promptBody (sorted : List BufferedThought) (count : Nat) : String :=
  let formatted := String.intercalate "\n"
    (sorted.enum.map (fun p => formatThought p.1 p.2))
  let p0Count := (sorted.filter (fun t => t.priority == "P0")).length
  let criticalNote := if p0Count > 0 then
      "\n\n**Note:** " ++ toString p0Count ++
        " CRITICAL thought(s) — preserve unless clearly obsolete."
    else ""
  "**SYSTEM: NETWORK RECOVERED**\n\nWhile congested, you drafted " ++
    toString count ++ " messages:\n\n" ++ formatted ++ "\n" ++ criticalNote ++
    "\n\n**TASK:** Review against current channel state.\n" ++
    "- Discard obsolete/superseded thoughts\n" ++
    "- Synthesize remaining into ONE coherent message\n" ++
    "- Do not apologize or mention delays"

/-- The core module's `generateSynthesisPrompt(thoughts)`: empty guard, then a
stable sort of a copy by priority/time, then the instruction block. -/
def generateSynthesisPrompt (pt : String → Int)
    (thoughts : List BufferedThought) : String :=
  if thoughts.length = 0 then "**SYSTEM: No buffered thoughts to synthesize.**"
  else promptBody (List.insertionSort (promptLE pt) thoughts) thoughts.length

/-- One formatted line of the plugin file's internal prompt variant: raw
(unescaped) content. -/
def formatThoughtRaw (i : Nat) (t : BufferedThought) : String :=
  toString (i + 1) ++ ". [" ++ t.created_at ++ "]" ++ priorityTag t.priority ++
    " \"" ++ t.content ++ "\""

/-- The plugin file's internal `generateSynthesisPrompt(thoughts)`: no empty
guard, no sort, no escaping, no critical note. -/
def generateSynthesisPromptPlugin (thoughts : List BufferedThought) : String :=
  let formatted := String.intercalate "\n"
    (thoughts.enum.map (fun p => formatThoughtRaw p.1 p.2))
  "**SYSTEM: NETWORK RECOVERED**\n\nWhile congested, you drafted " ++
    toString thoughts.length ++ " messages:\n\n" ++ formatted ++
    "\n\n**TASK:** Review against current channel state.\n" ++
    "- Discard obsolete/superseded thoughts\n" ++
    "- Synthesize remaining into ONE coherent message\n" ++
    "- Do not apologize or mention delays"

/-- C5: the escape used before embedding content in the synthesis prompt acts
on each character independently (so every character other than backslash,
double quote and newline passes through unmodified, each special character is
escaped exactly once), unescaping reconstructs the original content, and each
prompt line embeds exactly the escaped content between its quotes. -/
theorem escapeContent_round_trip (content : List Char) :
    unescapeContent (escapeContent content) = content ∧
    escapeContent content = content.flatMap escapeChar ∧
    (∀ c : Char, ¬(c = '\\' ∨ c = '"' ∨ c = '\n') → escapeChar c = [c]) ∧
    (∀ s : String, unescapeContent (escapeContentStr s).data = s.data) ∧
    (∀ (i : Nat) (t : BufferedThought), formatThought i t =
      (toString (i + 1) ++ ". [" ++ t.created_at ++ "]" ++
        priorityTag t.priority ++ " \"") ++ escapeContentStr t.content ++
        "\"") := by
  refine ⟨unescape_escape content, escapeContent_eq_flatMap content, ?_, ?_, ?_⟩
  · intro c hc
    simp only [escapeChar]
    rw [if_neg (fun h => hc (Or.inl h)), if_neg (fun h => hc (Or.inr (Or.inl h))),
      if_neg (fun h => hc (Or.inr (Or.inr h)))]
  · intro s
    exact unescape_escape s.data
  · intro i t
    simp [formatThought, String.append_assoc]

/-- C5 witness: round trip at a concrete content with quotes, backslashes,
newlines and an emoji, and pass-through at a concrete ordinary character. -/
theorem escapeContent_round_trip_witness :
    unescapeContent (escapeContent ("He said \"dam\\it\"\nto the 🦫".data)) =
      ("He said \"dam\\it\"\nto the 🦫".data) ∧
    escapeChar 'x' = ['x'] :=
  ⟨(escapeContent_round_trip ("He said \"dam\\it\"\nto the 🦫".data)).1,
    (escapeContent_round_trip ("He said \"dam\\it\"\nto the 🦫".data)).2.2.1 'x'
      (by decide)⟩

/-- C9 counterexample: the plugin file's synthesizer applied to an empty list
produces the normal synthesis block claiming 0 drafted messages, not the
fixed "nothing to synthesize" message the claim states. -/
theorem generateSynthesisPromptPlugin_empty :
    generateSynthesisPromptPlugin [] =
      "**SYSTEM: NETWORK RECOVERED**\n\nWhile congested, you drafted 0 " ++
        "messages:\n\n\n\n**TASK:** Review against current channel state.\n" ++
        "- Discard obsolete/superseded thoughts\n" ++
        "- Synthesize remaining into ONE coherent message\n" ++
        "- Do not apologize or mention delays" ∧
    generateSynthesisPromptPlugin [] ≠
      "**SYSTEM: No buffered thoughts to synthesize.**" := by
  constructor
  · rfl
  · decide

/-- C9 (amended): the core module's synthesizer applied to an empty list
returns the fixed "nothing to synthesize" message (no error, no synthesis
block); the plugin-internal copy lacks that guard. -/
theorem generateSynthesisPrompt_empty (pt : String → Int) :
    generateSynthesisPrompt pt [] =
      "**SYSTEM: No buffered thoughts to synthesize.**" := rfl

/-- A heap of JavaScript arrays of thoughts, for stating the frame property of
`generateSynthesisPrompt` (C10): array references are indices into the heap,
reads outside the heap see an empty array. -/
structure Heap where
  cells : List (List BufferedThought)
deriving Repr

/-- Dereference an array. -/
def Heap.read (h : Heap) (r : Nat) : List BufferedThought := h.cells.getD r []

/-- In-place update of an array (what `Array.prototype.sort` does). -/
def Heap.write (h : Heap) (r : Nat) (v : List BufferedThought) : Heap :=
  ⟨h.cells.set r v⟩

/-- Allocate a fresh array holding `v` (what the spread `[...thoughts]`
does). -/
def Heap.alloc (h : Heap) (v : List BufferedThought) : Heap × Nat :=
  (⟨h.cells ++ [v]⟩, h.cells.length)

/-- The function `generateSynthesisPrompt` against the heap: it reads the argument array,
spreads it into a freshly allocated copy, sorts that copy in place, and builds
the prompt from the sorted copy; the argument array is never written. -/
def generateSynthesisPromptH (pt : String → Int) (h : Heap) (r : Nat) :
    String × Heap :=
  let thoughts := h.read r
  if thoughts.length = 0 then
    ("**SYSTEM: No buffered thoughts to synthesize.**", h)
  else
    let copy := h.alloc (h.read r)
    let h2 := copy.1.write copy.2
      (List.insertionSort (promptLE pt) (copy.1.read copy.2))
    (promptBody (h2.read copy.2) thoughts.length, h2)

/-- C10: `generateSynthesisPrompt` never mutates its input array — after the
call the argument array reads back unchanged, the sort having been performed
on a fresh copy — and the returned text is the pure `generateSynthesisPrompt`
of the input's contents. -/
theorem generateSynthesisPrompt_frame (pt : String → Int) (h : Heap)
    (r : Nat) :
    (generateSynthesisPromptH pt h r).2.read r = h.read r ∧
    (generateSynthesisPromptH pt h r).1 =
      generateSynthesisPrompt pt (h.read r) := by
  by_cases hlen : (h.read r).length = 0
  · simp [generateSynthesisPromptH, generateSynthesisPrompt, hlen]
  · have hr : r < h.cells.length := by
      by_contra hge
      have h0 : h.cells[r]? = none := List.getElem?_eq_none (by omega)
      have : h.read r = [] := by
        simp [Heap.read, List.getD_eq_getElem?_getD, h0]
      simp [this] at hlen
    have hcopy : (⟨h.cells ++ [h.read r]⟩ : Heap).read h.cells.length =
        h.read r := by
      simp [Heap.read, List.getD_eq_getElem?_getD, List.getElem?_concat_length]
    have hwrite : (⟨(h.cells ++ [h.read r]).set h.cells.length
        (List.insertionSort (promptLE pt) (h.read r))⟩ : Heap).read
          h.cells.length =
        List.insertionSort (promptLE pt) (h.read r) := by
      simp [Heap.read, List.getD_eq_getElem?_getD,
        List.getElem?_set_self (by simp : h.cells.length <
          (h.cells ++ [h.read r]).length)]
    have hmain : generateSynthesisPromptH pt h r =
        (promptBody (List.insertionSort (promptLE pt) (h.read r))
            (h.read r).length,
          ⟨(h.cells ++ [h.read r]).set h.cells.length
            (List.insertionSort (promptLE pt) (h.read r))⟩) := by
      simp only [generateSynthesisPromptH, Heap.alloc, Heap.write, if_neg hlen]
      rw [hcopy, hwrite]
    rw [hmain]
    constructor
    · simp only [Heap.read, List.getD_eq_getElem?_getD]
      rw [List.getElem?_set_ne (by omega : h.cells.length ≠ r)]
      rw [List.getElem?_append_left hr]
    · rw [generateSynthesisPrompt, if_neg hlen]

/-- A JavaScript number: a finite value (modelled exactly) or one of the
non-finite values `NaN`, `Infinity`, `-Infinity`. -/
inductive JSNum where
  | finite (q : ℚ)
  | nan
  | posInf
  | negInf
deriving DecidableEq, Repr

/-- An arbitrary JavaScript value as seen by the validators: a string, a
number, `null`, `undefined`, a boolean, or some other object. -/
inductive JSVal where
  | vstr (s : String)
  | vnum (n : JSNum)
  | vnull
  | vundef
  | vbool (b : Bool)
  | vobj
deriving DecidableEq, Repr

/-- The guard: the value is a number and `Number.isFinite` holds of it. -/
def isFiniteNumber (v : JSVal) : Bool :=
  match v with
  | .vnum (.finite _) => true
  | _ => false

/-- The core `validatePriority(priority)`: the exact strings `P0`, `P1`, `P2` pass
through; anything else (including non-strings) defaults to `P1`. -/
def validatePriority (v : JSVal) : String :=
  match v with
  | .vstr s => if s = "P0" ∨ s = "P1" ∨ s = "P2" then s else "P1"
  | _ => "P1"

/-- JavaScript `String.prototype.trim()`: strip whitespace from both ends. -/
def jsTrim (s : List Char) : List Char :=
  ((s.dropWhile Char.isWhitespace).reverse.dropWhile Char.isWhitespace).reverse

/-- JavaScript `thought.substring(0, n)`, modelled at the character level. -/
def jsSubstring (s : String) (n : Nat) : String := String.mk (s.data.take n)

/-- The core `validateThought(thought)`: non-strings and strings that trim to empty are
rejected with `null`; content longer than 50000 is truncated, everything else
passes through. -/
def validateThought (v : JSVal) : Option String :=
  match v with
  | .vstr s =>
    if (jsTrim s.data).length = 0 then none
    else if s.length > 50000 then some (jsSubstring s 50000)
    else some s
  | _ => none

/-- The core `validateLatency(latencyMs)`: non-numbers and non-finite numbers become 0;
finite values are rounded and clamped to be non-negative. -/
def validateLatency (v : JSVal) : Int :=
  match v with
  | .vnum (.finite q) => max 0 (jsRound q)
  | .vnum _ => 0
  | _ => 0

/-- C8: validation never faults on malformed agent input — a priority that is
not exactly `P0`/`P1`/`P2` normalizes to `P1`; a non-number or non-finite
latency normalizes to 0, a negative one clamps to 0, and a non-negative
finite one is rounded; over-long content is truncated to 50000 characters
rather than rejected; and `validateThought` returns `null` (never throws)
exactly for non-strings and strings that are empty after trimming. -/
theorem validation_normalizes :
    (∀ v : JSVal, (∀ s : String, v = .vstr s →
        ¬(s = "P0" ∨ s = "P1" ∨ s = "P2")) → validatePriority v = "P1") ∧
    (∀ v : JSVal, isFiniteNumber v = false → validateLatency v = 0) ∧
    (∀ q : ℚ, q < 0 → validateLatency (.vnum (.finite q)) = 0) ∧
    (∀ q : ℚ, 0 ≤ q → validateLatency (.vnum (.finite q)) = jsRound q) ∧
    (∀ s : String, 50000 < s.length → (jsTrim s.data).length ≠ 0 →
      validateThought (.vstr s) = some (jsSubstring s 50000) ∧
        (jsSubstring s 50000).length = 50000) ∧
    (∀ v : JSVal, validateThought v = none ↔
      ((∀ s : String, v ≠ .vstr s) ∨
        (∃ s : String, v = .vstr s ∧ (jsTrim s.data).length = 0))) := by
  refine ⟨?_, ?_, ?_, ?_, ?_, ?_⟩
  · intro v hv
    match v with
    | .vstr s => simp [validatePriority, hv s rfl]
    | .vnum n => rfl
    | .vnull => rfl
    | .vundef => rfl
    | .vbool b => rfl
    | .vobj => rfl
  · intro v hv
    match v with
    | .vstr s => rfl
    | .vnum (.finite q) => simp [isFiniteNumber] at hv
    | .vnum .nan => rfl
    | .vnum .posInf => rfl
    | .vnum .negInf => rfl
    | .vnull => rfl
    | .vundef => rfl
    | .vbool b => rfl
    | .vobj => rfl
  · intro q hq
    have h1 : jsRound q ≤ 0 := by
      rw [jsRound, Int.floor_le_iff]
      push_cast
      linarith
    simp [validateLatency, max_eq_left h1]
  · intro q hq
    have h1 : 0 ≤ jsRound q := by
      rw [jsRound]
      exact Int.floor_nonneg.mpr (by linarith)
    simp [validateLatency, max_eq_right h1]
  · intro s hlong htrim
    have heq : validateThought (.vstr s) =
        if (jsTrim s.data).length = 0 then none
        else if s.length > 50000 then some (jsSubstring s 50000)
        else some s := rfl
    refine ⟨by rw [heq, if_neg htrim, if_pos hlong], ?_⟩
    have h : (s.data.take 50000).length = 50000 := by
      rw [List.length_take]
      have : 50000 ≤ s.data.length := le_of_lt hlong
      omega
    exact h
  · intro v
    match v with
    | .vstr s =>
      have heq : validateThought (.vstr s) =
          if (jsTrim s.data).length = 0 then none
          else if s.length > 50000 then some (jsSubstring s 50000)
          else some s := rfl
      constructor
      · intro hnone
        by_cases htrim : (jsTrim s.data).length = 0
        · exact Or.inr ⟨s, rfl, htrim⟩
        · rw [heq, if_neg htrim] at hnone
          by_cases hlong : s.length > 50000
          · rw [if_pos hlong] at hnone
            exact Option.noConfusion hnone
          · rw [if_neg hlong] at hnone
            exact Option.noConfusion hnone
      · intro hcase
        rcases hcase with hns | ⟨s', hs', htrim⟩
        · exact absurd rfl (hns s)
        · cases JSVal.vstr.inj hs'
          rw [heq, if_pos htrim]
    | .vnum n => exact ⟨fun _ => Or.inl (fun s h => JSVal.noConfusion h),
        fun _ => rfl⟩
    | .vnull => exact ⟨fun _ => Or.inl (fun s h => JSVal.noConfusion h),
        fun _ => rfl⟩
    | .vundef => exact ⟨fun _ => Or.inl (fun s h => JSVal.noConfusion h),
        fun _ => rfl⟩
    | .vbool b => exact ⟨fun _ => Or.inl (fun s h => JSVal.noConfusion h),
        fun _ => rfl⟩
    | .vobj => exact ⟨fun _ => Or.inl (fun s h => JSVal.noConfusion h),
        fun _ => rfl⟩

/-- A 60000-character thought, for the C8 witness. -/
def longThought : String := String.mk (List.replicate 60000 'a')

theorem dropWhile_replicate_a (n : Nat) :
    (List.replicate n 'a').dropWhile Char.isWhitespace =
      List.replicate n 'a' := by
  cases n with
  | zero => rfl
  | succ m =>
    rw [List.replicate_succ, List.dropWhile_cons]
    have hws : Char.isWhitespace 'a' = false := by decide
    rw [hws]
    simp

theorem jsTrim_longThought :
    jsTrim (List.replicate 60000 'a') = List.replicate 60000 'a' := by
  rw [jsTrim, dropWhile_replicate_a, List.reverse_replicate,
    dropWhile_replicate_a, List.reverse_replicate]

/-- C8 witness: the normalization rules at concrete malformed inputs — an
unknown priority string, a `NaN` latency, a negative latency, a fractional
latency, an over-long thought, and a whitespace-only thought. -/
theorem validation_normalizes_witness :
    validatePriority (.vstr "high") = "P1" ∧
    validateLatency (.vnum .nan) = 0 ∧
    validateLatency (.vnum (.finite (-100))) = 0 ∧
    validateLatency (.vnum (.finite (1001 / 2))) = jsRound (1001 / 2) ∧
    validateThought (.vstr longThought) =
      some (jsSubstring longThought 50000) ∧
    (validateThought (.vstr "   ") = none ↔
      ((∀ s : String, JSVal.vstr "   " ≠ .vstr s) ∨
        (∃ s : String, JSVal.vstr "   " = .vstr s ∧
          (jsTrim s.data).length = 0))) := by
  refine ⟨?_, ?_, ?_, ?_, ?_, ?_⟩
  · exact validation_normalizes.1 (.vstr "high")
      (by intro s hs; cases hs; decide)
  · exact validation_normalizes.2.1 (.vnum .nan) rfl
  · exact validation_normalizes.2.2.1 (-100) (by norm_num)
  · exact validation_normalizes.2.2.2.1 (1001 / 2) (by norm_num)
  · refine (validation_normalizes.2.2.2.2.1 longThought ?_ ?_).1
    · simp only [longThought, String.length]
      rw [List.length_replicate]
      norm_num
    · have hd : longThought.data = List.replicate 60000 'a' := rfl
      rw [hd, jsTrim_longThought, List.length_replicate]
      norm_num
  · exact validation_normalizes.2.2.2.2.2 (.vstr "   ")

/-- A row of the `synthesis_events` audit table (the DB-generated
`triggered_at` timestamp is omitted; no claim concerns it). -/
structure SynthesisEvent where
  agent_id : String
  thoughts_count : Nat
  final_output : Option String
deriving DecidableEq, Repr

/-- The governance database state: the `buffered_thoughts` table in rowid
order, the `synthesis_events` audit log, and the next `AUTOINCREMENT` id. -/
structure Store where
  nextId : Int
  thoughts : List BufferedThought
  events : List SynthesisEvent
deriving DecidableEq, Repr

/-- A fresh database. -/
def emptyStore : Store := ⟨1, [], []⟩

/-- JavaScript `x || y` on strings: the empty string is falsy. -/
def jsOr (x y : String) : String := if x = "" then y else x

/-- JavaScript `output || null` on an optional string. -/
def jsOrNull (o : Option String) : Option String :=
  match o with
  | some s => if s = "" then none else some s
  | none => none

/-- The arguments of one `insertThought` call, together with the value the
database clock gives `created_at` at that insert. -/
structure InsertReq where
  agent_id : String
  channel : String
  target : String
  content : String
  priority : String
  created_at : String
deriving DecidableEq, Repr

/-- The plugin `insertThought(agentId, channel, target, content, priority)`: append a row
with the next id, `target || ''`, `priority || 'P1'`, the clock's
`created_at`, and default status `pending`. -/
def insertThought (st : Store) (req : InsertReq) : Store :=
  { st with
    nextId := st.nextId + 1
    thoughts := st.thoughts ++
      [⟨st.nextId, req.agent_id, req.channel, jsOr req.target "",
        req.content, jsOr req.priority "P1", req.created_at, "pending"⟩] }

/-- A store built by a sequence of inserts into a fresh database. -/
def buildStore (reqs : List InsertReq) : Store :=
  reqs.foldl insertThought emptyStore

/-- The `WHERE agent_id = ? AND status = 'pending'` row predicate. -/
def pendingFor (agentId : String) (t : BufferedThought) : Bool :=
  t.agent_id == agentId && t.status == "pending"

/-- Lexicographic comparison of character lists: the order SQLite's BINARY
collation gives TEXT values (UTF-8 byte order coincides with code point
order). -/
def listLtb : List Char → List Char → Bool
  | [], [] => false
  | [], _ :: _ => true
  | _ :: _, [] => false
  | a :: as, b :: bs =>
    if a < b then true
    else if b < a then false
    else listLtb as bs

/-- Strict BINARY-collation comparison of TEXT values. -/
def sqliteLT (a b : String) : Prop := listLtb a.data b.data = true

/-- Non-strict BINARY-collation comparison of TEXT values. -/
def sqliteLE (a b : String) : Prop := listLtb b.data a.data = false

instance sqliteLT.decidable (a b : String) : Decidable (sqliteLT a b) := by
  unfold sqliteLT; infer_instance

instance sqliteLE.decidable (a b : String) : Decidable (sqliteLE a b) := by
  unfold sqliteLE; infer_instance

/-- The `ORDER BY priority ASC, created_at ASC` sort key as a non-strict
relation. -/
def thoughtLE (a b : BufferedThought) : Prop :=
  sqliteLT a.priority b.priority ∨
    (a.priority = b.priority ∧ sqliteLE a.created_at b.created_at)

instance thoughtLE.decidableRel : DecidableRel thoughtLE := fun a b => by
  unfold thoughtLE; infer_instance

/-- The plugin `getPendingThoughts(agentId)`: the pending rows of the agent in table
order, stably sorted by priority then creation time. -/
def getPendingThoughts (st : Store) (agentId : String) :
    List BufferedThought :=
  List.insertionSort thoughtLE (st.thoughts.filter (pendingFor agentId))

/-- The action of `UPDATE buffered_thoughts SET status = 'synthesized' WHERE
id IN (ids)` on one row. -/
def synthUpdate (ids : List Int) (t : BufferedThought) : BufferedThought :=
  if t.id ∈ ids then { t with status := "synthesized" } else t

/-- The plugin `markSynthesized(agentId, output)`: read the pending batch; if empty do
nothing, otherwise flip the collected ids to `synthesized` and append one
`synthesis_events` row recording the count and `output || null`. -/
def markSynthesized (st : Store) (agentId : String) (output : Option String) :
    Store :=
  let thoughts := getPendingThoughts st agentId
  if thoughts.isEmpty then st
  else
    { st with
      thoughts := st.thoughts.map (synthUpdate (thoughts.map (·.id)))
      events := st.events ++
        [⟨agentId, (thoughts.map (·.id)).length, jsOrNull output⟩] }

theorem listLtb_asymm : ∀ {xs ys : List Char},
    listLtb xs ys = true → listLtb ys xs = false
  | [], [], h => by simp [listLtb] at h
  | [], _ :: _, _ => rfl
  | _ :: _, [], h => by simp [listLtb] at h
  | a :: as, b :: bs, h => by
    rw [listLtb] at h
    rw [listLtb]
    by_cases hab : a < b
    · rw [if_neg (lt_asymm hab), if_pos hab]
    · by_cases hba : b < a
      · rw [if_neg hab, if_pos hba] at h
        cases h
      · rw [if_neg hab, if_neg hba] at h
        rw [if_neg hba, if_neg hab]
        exact listLtb_asymm h

theorem listLtb_conn : ∀ {xs ys : List Char},
    listLtb xs ys = false → listLtb ys xs = false → xs = ys
  | [], [], _, _ => rfl
  | [], _ :: _, h, _ => by simp [listLtb] at h
  | _ :: _, [], _, h => by simp [listLtb] at h
  | a :: as, b :: bs, h1, h2 => by
    rw [listLtb] at h1 h2
    by_cases hab : a < b
    · rw [if_pos hab] at h1
      cases h1
    · by_cases hba : b < a
      · rw [if_pos hba] at h2
        cases h2
      · rw [if_neg hab, if_neg hba] at h1
        rw [if_neg hba, if_neg hab] at h2
        have heq : a = b := le_antisymm (not_lt.mp hba) (not_lt.mp hab)
        rw [heq, listLtb_conn h1 h2]

theorem listLtb_trans : ∀ {xs ys zs : List Char},
    listLtb xs ys = true → listLtb ys zs = true → listLtb xs zs = true
  | [], ys, zs, h1, h2 => by
    cases zs with
    | cons z zs' => rfl
    | nil =>
      cases ys with
      | nil => simp [listLtb] at h1
      | cons y ys' => simp [listLtb] at h2
  | x :: xs', [], _, h1, _ => by simp [listLtb] at h1
  | x :: xs', y :: ys', [], _, h2 => by simp [listLtb] at h2
  | a :: as, b :: bs, c :: cs, h1, h2 => by
    rw [listLtb] at h1 h2
    rw [listLtb]
    by_cases hab : a < b
    · by_cases hbc : b < c
      · rw [if_pos (lt_trans hab hbc)]
      · by_cases hcb : c < b
        · rw [if_neg hbc, if_pos hcb] at h2
          cases h2
        · have heq : b = c := le_antisymm (not_lt.mp hcb) (not_lt.mp hbc)
          rw [if_pos (heq ▸ hab)]
    · by_cases hba : b < a
      · rw [if_neg hab, if_pos hba] at h1
        cases h1
      · have heq : a = b := le_antisymm (not_lt.mp hba) (not_lt.mp hab)
        rw [if_neg hab, if_neg hba] at h1
        by_cases hbc : b < c
        · rw [if_pos (heq ▸ hbc)]
        · by_cases hcb : c < b
          · rw [if_neg hbc, if_pos hcb] at h2
            cases h2
          · rw [if_neg hbc, if_neg hcb] at h2
            rw [if_neg (heq ▸ hbc), if_neg (heq ▸ hcb)]
            exact listLtb_trans h1 h2

theorem listLtb_le_trans {xs ys zs : List Char}
    (h1 : listLtb ys xs = false) (h2 : listLtb zs ys = false) :
    listLtb zs xs = false := by
  by_contra hc
  have hzx : listLtb zs xs = true := by
    cases h : listLtb zs xs
    · exact absurd h hc
    · rfl
  by_cases hxy : listLtb xs ys = true
  · have := listLtb_trans hzx hxy
    rw [this] at h2
    cases h2
  · have hxyf : listLtb xs ys = false := by
      cases h : listLtb xs ys
      · rfl
      · exact absurd h hxy
    have heq : xs = ys := listLtb_conn hxyf h1
    rw [heq] at hzx
    rw [hzx] at h2
    cases h2

theorem string_eq_of_data_eq {a b : String} (h : a.data = b.data) : a = b := by
  cases a
  cases b
  exact congrArg String.mk h

theorem thoughtLE_total (a b : BufferedThought) :
    thoughtLE a b ∨ thoughtLE b a := by
  unfold thoughtLE sqliteLT sqliteLE
  by_cases h1 : listLtb a.priority.data b.priority.data = true
  · exact Or.inl (Or.inl h1)
  · have h1f : listLtb a.priority.data b.priority.data = false := by
      cases h : listLtb a.priority.data b.priority.data
      · rfl
      · exact absurd h h1
    by_cases h2 : listLtb b.priority.data a.priority.data = true
    · exact Or.inr (Or.inl h2)
    · have h2f : listLtb b.priority.data a.priority.data = false := by
        cases h : listLtb b.priority.data a.priority.data
        · rfl
        · exact absurd h h2
      have heq : a.priority = b.priority :=
        string_eq_of_data_eq (listLtb_conn h1f h2f)
      by_cases h3 : listLtb b.created_at.data a.created_at.data = true
      · exact Or.inr (Or.inr ⟨heq.symm, listLtb_asymm h3⟩)
      · have h3f : listLtb b.created_at.data a.created_at.data = false := by
          cases h : listLtb b.created_at.data a.created_at.data
          · rfl
          · exact absurd h h3
        exact Or.inl (Or.inr ⟨heq, h3f⟩)

theorem thoughtLE_trans (a b c : BufferedThought) (hab : thoughtLE a b)
    (hbc : thoughtLE b c) : thoughtLE a c := by
  unfold thoughtLE sqliteLT sqliteLE at *
  rcases hab with h1 | ⟨h1, hc1⟩
  · rcases hbc with h2 | ⟨h2, hc2⟩
    · exact Or.inl (listLtb_trans h1 h2)
    · exact Or.inl (h2 ▸ h1)
  · rcases hbc with h2 | ⟨h2, hc2⟩
    · exact Or.inl (h1 ▸ h2)
    · exact Or.inr ⟨h1.trans h2, listLtb_le_trans hc1 hc2⟩

/-- Stability of `orderedInsert`: inserting `a` into a sorted list that is
pairwise ordered with tie-break `s`, where `s a x` holds for every present
element, preserves the tie-broken pairwise order. -/
theorem orderedInsert_pairwise_stable {α : Type} {r : α → α → Prop}
    [DecidableRel r] (total : ∀ a b : α, r a b ∨ r b a)
    (trans : ∀ a b c : α, r a b → r b c → r a c)
    {s : α → α → Prop} {a : α} :
    ∀ {L : List α},
      L.Pairwise (fun x y => r x y ∧ (r y x → s x y)) →
      L.Pairwise r → (∀ x ∈ L, s a x) →
      (L.orderedInsert r a).Pairwise (fun x y => r x y ∧ (r y x → s x y))
  | [], _, _, _ => List.pairwise_singleton _ a
  | b :: L, hL, hsorted, ha => by
    rw [List.orderedInsert]
    by_cases h : r a b
    · rw [if_pos h]
      refine List.Pairwise.cons ?_ hL
      intro y hy
      rcases List.mem_cons.mp hy with hyb | hyL
      · subst hyb
        exact ⟨h, fun _ => ha y (List.mem_cons_self _ _)⟩
      · refine ⟨trans a b y h (List.rel_of_pairwise_cons hsorted hyL),
          fun _ => ha y (List.mem_cons_of_mem _ hyL)⟩
    · rw [if_neg h]
      refine List.Pairwise.cons ?_ ?_
      · intro y hy
        rcases (List.mem_orderedInsert r).mp hy with rfl | hyL
        · exact ⟨(total y b).resolve_left h, fun hab => absurd hab h⟩
        · exact List.rel_of_pairwise_cons hL hyL
      · exact orderedInsert_pairwise_stable total trans hL.tail hsorted.tail
          (fun x hx => ha x (List.mem_cons_of_mem _ hx))

/-- Stability of `insertionSort`: sorting a list that is pairwise `s`-ordered
(for instance by strictly increasing ids) yields a list pairwise ordered by
the sort relation with `s` deciding ties. -/
theorem insertionSort_pairwise_stable {α : Type} {r : α → α → Prop}
    [DecidableRel r] (total : ∀ a b : α, r a b ∨ r b a)
    (trans : ∀ a b c : α, r a b → r b c → r a c)
    {s : α → α → Prop} :
    ∀ {l : List α}, l.Pairwise s →
      (l.insertionSort r).Pairwise (fun x y => r x y ∧ (r y x → s x y))
  | [], _ => List.Pairwise.nil
  | a :: l, hl => by
    rw [List.insertionSort]
    have ih := insertionSort_pairwise_stable total trans hl.tail
    refine orderedInsert_pairwise_stable total trans ih
      (ih.imp (fun h => h.1)) ?_
    intro x hx
    exact List.rel_of_pairwise_cons hl ((List.mem_insertionSort r).mp hx)

theorem mem_pending_id_mem {st : Store} {agentId : String}
    {t : BufferedThought} (ht : t ∈ st.thoughts)
    (hp : pendingFor agentId t = true) :
    t.id ∈ (getPendingThoughts st agentId).map (·.id) := by
  have hfil : t ∈ st.thoughts.filter (pendingFor agentId) :=
    List.mem_filter.mpr ⟨ht, hp⟩
  have hsort : t ∈ getPendingThoughts st agentId :=
    (List.mem_insertionSort thoughtLE).mpr hfil
  exact List.mem_map_of_mem _ hsort

theorem markSynthesized_of_empty {st : Store} {agentId : String}
    (h : getPendingThoughts st agentId = []) (output : Option String) :
    markSynthesized st agentId output = st := by
  unfold markSynthesized
  rw [h]
  rfl

/-- C3: `markSynthesized(agentId, output)` with no pending entries is a no-op
recording no event; with pending entries it flips exactly the collected batch
to `synthesized` (so every currently pending entry of the agent transitions,
and none remains pending), appends exactly one `SynthesisEvent` recording the
batch size and the output (`output || null`), and an immediately repeated call
changes nothing. -/
theorem markSynthesized_spec (st : Store) (agentId : String)
    (output output' : Option String) :
    (getPendingThoughts st agentId = [] →
      markSynthesized st agentId output = st) ∧
    (getPendingThoughts st agentId ≠ [] →
      (markSynthesized st agentId output).thoughts =
        st.thoughts.map
          (synthUpdate ((getPendingThoughts st agentId).map (·.id))) ∧
      (∀ t ∈ st.thoughts, pendingFor agentId t = true →
        (synthUpdate ((getPendingThoughts st agentId).map (·.id)) t).status =
          "synthesized") ∧
      getPendingThoughts (markSynthesized st agentId output) agentId = [] ∧
      (markSynthesized st agentId output).events =
        st.events ++ [⟨agentId, (getPendingThoughts st agentId).length,
          jsOrNull output⟩] ∧
      markSynthesized (markSynthesized st agentId output) agentId output' =
        markSynthesized st agentId output) := by
  constructor
  · intro h
    exact markSynthesized_of_empty h output
  · intro hne
    have hemp : (getPendingThoughts st agentId).isEmpty = false := by
      cases h : getPendingThoughts st agentId with
      | nil => exact absurd h hne
      | cons t rest => rfl
    have hmark : markSynthesized st agentId output =
        { st with
          thoughts := st.thoughts.map
            (synthUpdate ((getPendingThoughts st agentId).map (·.id)))
          events := st.events ++
            [⟨agentId, ((getPendingThoughts st agentId).map (·.id)).length,
              jsOrNull output⟩] } := by
      simp only [markSynthesized, hemp, Bool.false_eq_true, if_false]
    have hthoughts : (markSynthesized st agentId output).thoughts =
        st.thoughts.map
          (synthUpdate ((getPendingThoughts st agentId).map (·.id))) := by
      rw [hmark]
    have hupd : ∀ t ∈ st.thoughts, pendingFor agentId t = true →
        (synthUpdate ((getPendingThoughts st agentId).map (·.id)) t).status =
          "synthesized" := by
      intro t ht hp
      unfold synthUpdate
      rw [if_pos (mem_pending_id_mem ht hp)]
    have hnone : getPendingThoughts (markSynthesized st agentId output)
        agentId = [] := by
      unfold getPendingThoughts
      rw [hthoughts]
      have hfil : (st.thoughts.map
          (synthUpdate ((getPendingThoughts st agentId).map (·.id)))).filter
            (pendingFor agentId) = [] := by
        rw [List.filter_eq_nil_iff]
        intro u hu
        rcases List.mem_map.mp hu with ⟨t, ht, hut⟩
        subst hut
        by_cases hid : t.id ∈ (getPendingThoughts st agentId).map (·.id)
        · have : (synthUpdate ((getPendingThoughts st agentId).map (·.id))
              t).status = "synthesized" := by
            unfold synthUpdate
            rw [if_pos hid]
          intro hpend
          unfold pendingFor at hpend
          rw [this] at hpend
          simp at hpend
        · have hsame : synthUpdate ((getPendingThoughts st agentId).map
              (·.id)) t = t := by
            unfold synthUpdate
            rw [if_neg hid]
          rw [hsame]
          intro hpend
          exact hid (mem_pending_id_mem ht hpend)
      rw [hfil]
      rfl
    refine ⟨hthoughts, hupd, hnone, ?_, ?_⟩
    · rw [hmark]
      simp
    · exact markSynthesized_of_empty hnone output'

/-- C3 witness store: two pending thoughts for `main` (one `P0`, one `P1`)
and one pending thought for another agent. -/
def c3Store : Store :=
  ⟨4,
    [⟨1, "main", "slack", "", "alpha", "P1", "2024-01-01 10:00:00", "pending"⟩,
     ⟨2, "other", "slack", "", "beta", "P1", "2024-01-01 10:00:01", "pending"⟩,
     ⟨3, "main", "slack", "", "gamma", "P0", "2024-01-01 10:00:02", "pending"⟩],
    []⟩

/-- C3 witness: the non-empty branch of `markSynthesized_spec` at a concrete
store. -/
theorem markSynthesized_spec_witness :
    getPendingThoughts c3Store "main" ≠ [] ∧
    ((markSynthesized c3Store "main" (some "out")).thoughts =
        c3Store.thoughts.map
          (synthUpdate ((getPendingThoughts c3Store "main").map (·.id))) ∧
      (∀ t ∈ c3Store.thoughts, pendingFor "main" t = true →
        (synthUpdate ((getPendingThoughts c3Store "main").map (·.id))
          t).status = "synthesized") ∧
      getPendingThoughts (markSynthesized c3Store "main" (some "out"))
        "main" = [] ∧
      (markSynthesized c3Store "main" (some "out")).events =
        c3Store.events ++ [⟨"main", (getPendingThoughts c3Store "main").length,
          jsOrNull (some "out")⟩] ∧
      markSynthesized (markSynthesized c3Store "main" (some "out")) "main"
          (some "again") =
        markSynthesized c3Store "main" (some "out")) :=
  ⟨by decide,
    (markSynthesized_spec c3Store "main" (some "out") (some "again")).2
      (by decide)⟩

/-- The priority tier rank used to state the `P0 < P1 < P2` ordering claim. -/
def priRank (p : String) : Nat :=
  if p = "P0" then 0 else if p = "P1" then 1 else if p = "P2" then 2 else 1

/-- The priority strings the `CHECK(priority IN ('P0','P1','P2'))` constraint
admits. -/
def validPriorities : List String := ["P0", "P1", "P2"]

/-- The ordering C4 claims of `pending(agentId)`: primarily by priority tier
`P0 < P1 < P2`, secondarily by `created_at` ascending, with creation (id)
order breaking exact ties — a stable order. -/
def pendingOrdered (a b : BufferedThought) : Prop :=
  priRank a.priority < priRank b.priority ∨
    (priRank a.priority = priRank b.priority ∧
      (sqliteLT a.created_at b.created_at ∨
        (a.created_at = b.created_at ∧ a.id < b.id)))

theorem sqliteLT_iff_priRank_lt :
    ∀ p ∈ validPriorities, ∀ q ∈ validPriorities,
      (sqliteLT p q ↔ priRank p < priRank q) := by
  decide

theorem foldl_insert_ids (reqs : List InsertReq) :
    ∀ st : Store, (∀ t ∈ st.thoughts, t.id < st.nextId) →
      st.thoughts.Pairwise (fun a b => a.id < b.id) →
      (∀ t ∈ (reqs.foldl insertThought st).thoughts,
        t.id < (reqs.foldl insertThought st).nextId) ∧
      (reqs.foldl insertThought st).thoughts.Pairwise
        (fun a b => a.id < b.id) := by
  induction reqs with
  | nil => intro st hbound hpair; exact ⟨hbound, hpair⟩
  | cons req rest ih =>
    intro st hbound hpair
    rw [List.foldl_cons]
    apply ih
    · intro t ht
      simp only [insertThought, List.mem_append, List.mem_singleton] at ht
      rcases ht with ht | ht
      · have := hbound t ht
        simp only [insertThought]
        omega
      · subst ht
        simp only [insertThought]
        omega
    · simp only [insertThought]
      rw [List.pairwise_append]
      refine ⟨hpair, List.pairwise_singleton _ _, ?_⟩
      intro a ha b hb
      rw [List.mem_singleton] at hb
      subst hb
      exact hbound a ha

theorem buildStore_ids (reqs : List InsertReq) :
    (buildStore reqs).thoughts.Pairwise (fun a b => a.id < b.id) :=
  (foldl_insert_ids reqs emptyStore (by simp [emptyStore])
    (by simp [emptyStore])).2

theorem foldl_insert_priorities (reqs : List InsertReq) :
    ∀ st : Store,
      (∀ r ∈ reqs, r.priority ∈ "" :: validPriorities) →
      (∀ t ∈ st.thoughts, t.priority ∈ validPriorities) →
      ∀ t ∈ (reqs.foldl insertThought st).thoughts,
        t.priority ∈ validPriorities := by
  induction reqs with
  | nil => intro st _ hst; exact hst
  | cons req rest ih =>
    intro st hreqs hst
    rw [List.foldl_cons]
    apply ih
    · intro r hr
      exact hreqs r (List.mem_cons_of_mem _ hr)
    · intro t ht
      simp only [insertThought, List.mem_append, List.mem_singleton] at ht
      rcases ht with ht | ht
      · exact hst t ht
      · subst ht
        have hreq : req.priority ∈ "" :: validPriorities :=
          hreqs req (List.mem_cons_self _ _)
        simp only [jsOr]
        by_cases he : req.priority = ""
        · rw [if_pos he]
          decide
        · rw [if_neg he]
          rcases List.mem_cons.mp hreq with h | h
          · exact absurd h he
          · exact h

theorem buildStore_priorities (reqs : List InsertReq)
    (hreqs : ∀ r ∈ reqs, r.priority ∈ "" :: validPriorities) :
    ∀ t ∈ (buildStore reqs).thoughts, t.priority ∈ validPriorities :=
  foldl_insert_priorities reqs emptyStore hreqs (by simp [emptyStore])

theorem pendingOrdered_of_stable {a b : BufferedThought}
    (hva : a.priority ∈ validPriorities) (hvb : b.priority ∈ validPriorities)
    (h : thoughtLE a b ∧ (thoughtLE b a → a.id < b.id)) :
    pendingOrdered a b := by
  rcases h with ⟨h1, h2⟩
  by_cases heq : a.priority = b.priority
  · have hrank : priRank a.priority = priRank b.priority := by rw [heq]
    have hcle : sqliteLE a.created_at b.created_at := by
      rcases h1 with hlt | ⟨_, hle⟩
      · rw [heq] at hlt
        have := (sqliteLT_iff_priRank_lt _ hvb _ hvb).mp hlt
        omega
      · exact hle
    by_cases hclt : sqliteLT a.created_at b.created_at
    · exact Or.inr ⟨hrank, Or.inl hclt⟩
    · have hcltf : listLtb a.created_at.data b.created_at.data = false := by
        cases hx : listLtb a.created_at.data b.created_at.data
        · rfl
        · exact absurd hx hclt
      have hceq : a.created_at = b.created_at :=
        string_eq_of_data_eq (listLtb_conn hcltf hcle)
      have hba : thoughtLE b a :=
        Or.inr ⟨heq.symm, hceq ▸ hcltf⟩
      exact Or.inr ⟨hrank, Or.inr ⟨hceq, h2 hba⟩⟩
  · rcases h1 with hlt | ⟨he, _⟩
    · exact Or.inl ((sqliteLT_iff_priRank_lt _ hva _ hvb).mp hlt)
    · exact absurd he heq

/-- C4: for every interleaving of inserts into a fresh store and every agent,
`pending(agentId)` returns exactly the rows with `status='pending'` for that
agent (as a permutation of the table filter), ordered primarily by priority
`P0 < P1 < P2`, secondarily by `created_at` ascending, with insertion (id)
order breaking exact ties — a stable order. -/
theorem getPendingThoughts_sorted (reqs : List InsertReq) (agentId : String)
    (hvalid : ∀ r ∈ reqs, r.priority ∈ "" :: validPriorities) :
    (getPendingThoughts (buildStore reqs) agentId).Perm
      ((buildStore reqs).thoughts.filter (pendingFor agentId)) ∧
    (getPendingThoughts (buildStore reqs) agentId).Pairwise pendingOrdered := by
  constructor
  · exact List.perm_insertionSort thoughtLE _
  · have hpairId : ((buildStore reqs).thoughts.filter
        (pendingFor agentId)).Pairwise (fun a b => a.id < b.id) :=
      (buildStore_ids reqs).filter _
    have hstable := insertionSort_pairwise_stable thoughtLE_total
      thoughtLE_trans hpairId
    refine hstable.imp_of_mem ?_
    intro a b ha hb hab
    have hma : a ∈ (buildStore reqs).thoughts :=
      (List.mem_filter.mp ((List.mem_insertionSort thoughtLE).mp ha)).1
    have hmb : b ∈ (buildStore reqs).thoughts :=
      (List.mem_filter.mp ((List.mem_insertionSort thoughtLE).mp hb)).1
    exact pendingOrdered_of_stable
      (buildStore_priorities reqs hvalid a hma)
      (buildStore_priorities reqs hvalid b hmb) hab

/-- C4 witness inserts: the spec's scenario — three thoughts for `main`
inserted with priorities `P2`, `P0`, `P1` (plus one for another agent with a
missing priority), two of them sharing a `created_at` second. -/
def c4Reqs : List InsertReq :=
  [⟨"main", "slack", "", "low thought", "P2", "2024-01-01 10:00:00"⟩,
   ⟨"main", "slack", "", "critical", "P0", "2024-01-01 10:00:01"⟩,
   ⟨"main", "slack", "", "normal", "P1", "2024-01-01 10:00:01"⟩,
   ⟨"other", "slack", "", "elsewhere", "", "2024-01-01 10:00:02"⟩]

/-- C4 witness: the ordering theorem at the concrete insert interleaving. -/
theorem getPendingThoughts_sorted_witness :
    (∀ r ∈ c4Reqs, r.priority ∈ "" :: validPriorities) ∧
    ((getPendingThoughts (buildStore c4Reqs) "main").Perm
      ((buildStore c4Reqs).thoughts.filter (pendingFor "main")) ∧
    (getPendingThoughts (buildStore c4Reqs) "main").Pairwise pendingOrdered) :=
  ⟨by decide, getPendingThoughts_sorted c4Reqs "main" (by decide)⟩

/-- The thought-buffer variant's row shape (`interface BufferedThought` of
src/src/index.ts): `low`/`normal`/`high` priorities, and pending encoded as
`synthesized_at IS NULL AND discarded = 0`. -/
structure TBThought where
  id : Int
  agent_id : String
  channel : String
  target : String
  content : String
  priority : String
  created_at : String
  synthesized_at : Option String
  discarded : Int
  metadata : Option String
deriving DecidableEq, Repr

/-- The thought-buffer variant's pending row predicate
(`agent_id = ? AND synthesized_at IS NULL AND discarded = 0`). -/
def tbPendingFor (agentId : String) (t : TBThought) : Bool :=
  t.agent_id == agentId && t.synthesized_at == none && t.discarded == 0

/-- The thought-buffer variant's sort key: `ORDER BY created_at ASC` only —
no priority key. -/
def tbCreatedLE (a b : TBThought) : Prop :=
  sqliteLE a.created_at b.created_at

instance tbCreatedLE.decidableRel : DecidableRel tbCreatedLE := fun a b => by
  unfold tbCreatedLE; infer_instance

/-- The thought-buffer variant's `getPendingThoughts(agentId)`
(src/src/index.ts): the pending rows of the agent in table order, stably
sorted by `created_at` alone. -/
def getPendingThoughtsTB (table : List TBThought) (agentId : String) :
    List TBThought :=
  List.insertionSort tbCreatedLE (table.filter (tbPendingFor agentId))

/-- The priority tier rank of the thought-buffer variant (its synthesis
comparator's `{ high: 0, normal: 1, low: 2 }`): the claim's `P0 < P1 < P2`
corresponds to `high < normal < low`. -/
def tbPriRank (p : String) : Nat :=
  if p = "high" then 0 else if p = "normal" then 1 else if p = "low" then 2
  else 1

/-- A `low`-priority pending thought created first. -/
def tbLow : TBThought :=
  ⟨1, "main", "slack", "", "minor note", "low", "2024-01-01 10:00:00",
    none, 0, none⟩

/-- A `high`-priority pending thought created second. -/
def tbHigh : TBThought :=
  ⟨2, "main", "slack", "", "urgent", "high", "2024-01-01 10:00:01",
    none, 0, none⟩

/-- C4 counterexample: the cited `getPendingThoughts` of src/src/index.ts
orders by `created_at` only, so with a low-priority thought created before a
high-priority one it returns the low-priority entry first — the result is not
ordered primarily by priority tier, refuting the claim on this cited
implementation. -/
theorem getPendingThoughtsTB_not_priority_ordered :
    getPendingThoughtsTB [tbLow, tbHigh] "main" = [tbLow, tbHigh] ∧
    ¬ (getPendingThoughtsTB [tbLow, tbHigh] "main").Pairwise
        (fun a b => tbPriRank a.priority ≤ tbPriRank b.priority) := by
  constructor
  · decide
  · decide
